import Mathlib

/-!
Shallow embedding of the rofi-keys launcher (src/main.rs) and proofs of its
specification properties.

Modelling conventions:
* Rust `String` is Lean `String`; `char` is `Char`; `i32` exit codes are `Int`.
* `std::collections::HashMap<char, i32>` is modelled as an association list
  with overwriting insert (`hm_insert`): the map semantics of `HashMap::insert`.
  Iteration order of a `HashMap` is unspecified; the decoding loop's result is
  shown independent of the order because the recorded indices are pairwise
  distinct.
* The filesystem plus the JSON codec (serde_json) are external collaborators:
  they are modelled at the JSON-value level, a store `FS : String → Option
  JsonVal` mapping a path to the parsed content of the file stored there.
* Process-level effects (rofi invocation, `sh -c` spawning, stdout/stderr)
  are modelled by passing the child's optional exit status in and returning
  the list of launched commands / diagnostic lines out.
-/

/-- One `[key, label, command]` record of the persisted configuration
(struct `MenuEntryConfig` in main.rs). -/
structure MenuEntryConfig where
  key : String
  label : String
  command : String
deriving DecidableEq, Repr

/-- The persisted configuration (struct `Config` in main.rs). -/
structure Config where
  theme : Option String
  menu_title : Option String
  entries : List MenuEntryConfig
deriving DecidableEq, Repr

/-- A runtime menu entry (struct `MenuEntry` in main.rs): the key has been
narrowed to a single character. -/
structure MenuEntry where
  key : Char
  label : String
  command : String
deriving DecidableEq, Repr

/-- The runtime menu (struct `Menu` in main.rs). -/
structure Menu where
  title : String
  entries : List MenuEntry
  theme : Option String
deriving DecidableEq, Repr

/-- `Menu::new` in main.rs. -/
def Menu.new (title : String) (theme : Option String) : Menu :=
  { title := title, entries := [], theme := theme }

/-- `Menu::add_entry` in main.rs: appends an entry. -/
def Menu.add_entry (m : Menu) (key : Char) (label : String) (command : String) : Menu :=
  { m with entries := m.entries ++ [{ key := key, label := label, command := command }] }

/-- The per-entry lines built inside `Menu::generate_rofi_input`
(`format!("[\x7b\x7d] \x7b\x7d", entry.key, entry.label)` mapped over the
entries, before the `join("\n")`). -/
def Menu.rofi_input_lines (m : Menu) : List String :=
  m.entries.map (fun entry => "[" ++ entry.key.toString ++ "] " ++ entry.label)

/-- `Menu::generate_rofi_input` in main.rs: the lines joined with newlines. -/
def Menu.generate_rofi_input (m : Menu) : String :=
  String.intercalate "\n" m.rofi_input_lines

/-- `Menu::get_command_for_key` in main.rs: first entry whose key matches. -/
def Menu.get_command_for_key (m : Menu) (key : Char) : Option String :=
  (m.entries.find? (fun entry => entry.key == key)).map (fun entry => entry.command)

/-- `HashMap::insert` on the association-list model: any previous binding of
the key is removed and the new binding recorded. -/
def hm_insert (m : List (Char × Int)) (k : Char) (v : Int) : List (Char × Int) :=
  m.filter (fun p => p.1 != k) ++ [(k, v)]

/-- The key-binding loop of `Menu::display_with_rofi`: for the entry at
0-based position `i`, kb-index `i + 1` is bound and `key_to_index` records
`entry.key ↦ i + 1`. -/
def build_key_to_index : Nat → List MenuEntry → List (Char × Int) → List (Char × Int)
  | _, [], m => m
  | i, e :: rest, m => build_key_to_index (i + 1) rest (hm_insert m e.key ((i : Int) + 1))

/-- The `key_to_index` map of `Menu::display_with_rofi`, built from the
entries starting at position 0 with an empty map. -/
def key_to_index (entries : List MenuEntry) : List (Char × Int) :=
  build_key_to_index 0 entries []

/-- The reverse-lookup loop of `Menu::display_with_rofi`: scan the recorded
`(key, index)` pairs; on a pair whose index matches, resolve the key through
`get_command_for_key` and return its command; otherwise keep scanning. -/
def find_command_for_index (m : Menu) : List (Char × Int) → Int → Option String
  | [], _ => none
  | (key, idx) :: rest, kb_index =>
    if idx = kb_index then
      match m.get_command_for_key key with
      | some cmd => some cmd
      | none => find_command_for_index m rest kb_index
    else find_command_for_index m rest kb_index

/-- The pure part of `Menu::display_with_rofi` in main.rs: given the child
process's optional exit status (`output.status.code()`), substitute 0 when
absent (`unwrap_or(0)`), and decode codes ≥ 10 through the recorded
key bindings; everything else is no selection. -/
def Menu.display_with_rofi (m : Menu) (status_code : Option Int) : Option String :=
  let ktoi := key_to_index m.entries
  let exit_code := status_code.getD 0
  if exit_code ≥ 10 then
    find_command_for_index m ktoi (exit_code - 9)
  else
    none

/-- The final step of `main` in main.rs: if `display_with_rofi` resolved a
command, `execute_command` spawns it (fire and forget); the result is the
list of commands handed to the shell. -/
def main_launch (selection : Option String) : List String :=
  match selection with
  | some cmd => [cmd]
  | none => []

/-- Rust `str::replacen(pat, rep, n)` on character lists: replace the first
`n` non-overlapping occurrences of `pat`, scanning left to right. -/
def list_replacen (pat rep : List Char) : List Char → Nat → List Char
  | t, 0 => t
  | [], _ => []
  | c :: cs, n + 1 =>
    if pat.isPrefixOf (c :: cs) then
      rep ++ list_replacen pat rep ((c :: cs).drop pat.length) n
    else
      c :: list_replacen pat rep cs (n + 1)
termination_by t n => n + t.length
decreasing_by
  all_goals simp [List.length_drop]
  omega

/-- Rust `str::replacen` on strings. -/
def rust_replacen (s pat rep : String) (n : Nat) : String :=
  ⟨list_replacen pat.data rep.data s.data n⟩

/-- Rust `str::starts_with` for a string pattern. -/
def rust_starts_with (s pre : String) : Bool :=
  pre.data.isPrefixOf s.data

/-- Rust `str::ends_with` for a string pattern. -/
def rust_ends_with (s suf : String) : Bool :=
  suf.data.isSuffixOf s.data

/-- `expand_path` in main.rs: the value of the `HOME` environment variable is
passed explicitly (`none` models an unset variable). -/
def expand_path (home : Option String) (path : String) : String :=
  if rust_starts_with path "~/" then
    match home with
    | some h => rust_replacen path "~" h 1
    | none => path
  else
    path

/-- `create_default_config` in main.rs. -/
def create_default_config : Config :=
  { theme := none
    menu_title := some "Applications"
    entries :=
      [ { key := "f", label := "Firefox", command := "firefox" },
        { key := "p", label := "Firefox Private", command := "firefox --private-window" },
        { key := "m", label := "MPV", command := "mpv" },
        { key := "v", label := "MPV (clipboard)", command := "mpv \"$(xclip -o)\"" },
        { key := "t", label := "Terminal", command := "x-terminal-emulator" } ] }

/-- JSON values, as far as this configuration format needs them. The JSON
codec (serde_json) is an external collaborator; files are modelled at the
JSON-value level. -/
inductive JsonVal where
  | null : JsonVal
  | str : String → JsonVal
  | arr : List JsonVal → JsonVal
  | obj : List (String × JsonVal) → JsonVal

/-- Serialization of an optional string field (serde: `None` becomes
`null`). -/
def option_string_to_json : Option String → JsonVal
  | none => JsonVal.null
  | some s => JsonVal.str s

/-- serde serialization of a `MenuEntryConfig`. -/
def MenuEntryConfig.to_json (e : MenuEntryConfig) : JsonVal :=
  JsonVal.obj [("key", JsonVal.str e.key), ("label", JsonVal.str e.label),
    ("command", JsonVal.str e.command)]

/-- serde serialization of a `Config`. -/
def Config.to_json (c : Config) : JsonVal :=
  JsonVal.obj [("theme", option_string_to_json c.theme),
    ("menu_title", option_string_to_json c.menu_title),
    ("entries", JsonVal.arr (c.entries.map MenuEntryConfig.to_json))]

/-- Look a field up in a JSON object (first occurrence). -/
def json_field : List (String × JsonVal) → String → Option JsonVal
  | [], _ => none
  | (k, v) :: rest, name => if k = name then some v else json_field rest name

/-- serde deserialization of an `Option<String>` field: a missing field and
an explicit `null` both give `none`; anything but a string is a parse
error. -/
def json_opt_string (fields : List (String × JsonVal)) (name : String) :
    Option (Option String) :=
  match json_field fields name with
  | none => some none
  | some JsonVal.null => some none
  | some (JsonVal.str s) => some (some s)
  | some _ => none

/-- serde deserialization of a `MenuEntryConfig`: all three fields are
required strings. -/
def MenuEntryConfig.from_json : JsonVal → Option MenuEntryConfig
  | JsonVal.obj fields =>
    match json_field fields "key", json_field fields "label",
        json_field fields "command" with
    | some (JsonVal.str k), some (JsonVal.str l), some (JsonVal.str c) =>
      some { key := k, label := l, command := c }
    | _, _, _ => none
  | _ => none

/-- serde deserialization of the entry array, failing on the first bad
element. -/
def decode_entries : List JsonVal → Option (List MenuEntryConfig)
  | [] => some []
  | j :: rest =>
    match MenuEntryConfig.from_json j, decode_entries rest with
    | some e, some es => some (e :: es)
    | _, _ => none

/-- serde deserialization of a `Config`. -/
def Config.from_json : JsonVal → Option Config
  | JsonVal.obj fields =>
    match json_opt_string fields "theme", json_opt_string fields "menu_title",
        json_field fields "entries" with
    | some th, some ti, some (JsonVal.arr items) =>
      match decode_entries items with
      | some es => some { theme := th, menu_title := ti, entries := es }
      | none => none
    | _, _, _ => none
  | _ => none

/-- The filesystem as seen by the config store: a path maps to the parsed
JSON content of the file stored there, `none` when no file exists. -/
def FS : Type := String → Option JsonVal

/-- `write_config` in main.rs: serializes the configuration and stores it at
the path (directory creation and the confirmation message carry no state in
this model). -/
def write_config (fs : FS) (path : String) (config : Config) : FS :=
  fun p => if p = path then some config.to_json else fs p

/-- `load_config` in main.rs: a missing file is replaced by the persisted
default configuration; an existing file is parsed, a parse failure reported
as an error. The returned pair carries the possibly-updated filesystem. -/
def load_config (fs : FS) (path : String) : Except String (Config × FS) :=
  match fs path with
  | none =>
    let default_config := create_default_config
    Except.ok (default_config, write_config fs path default_config)
  | some content =>
    match Config.from_json content with
    | some config => Except.ok (config, fs)
    | none => Except.error "Invalid JSON config"

/-- `PathBuf::push` of a relative component, on string paths. -/
def path_push (base rel : String) : String :=
  if rust_starts_with rel "/" then rel
  else if base = "" then rel
  else if rust_ends_with base "/" then base ++ rel
  else base ++ "/" ++ rel

/-- `get_default_config_path` in main.rs: `HOME` (passed explicitly) with
`.config/rofi-keys/config.json` pushed onto it; an unset `HOME` is the
home-not-found error. -/
def get_default_config_path (home : Option String) : Except String String :=
  match home with
  | some h => Except.ok (path_push h ".config/rofi-keys/config.json")
  | none => Except.error "HOME directory not found"

/-- The config-path step of `main` in main.rs: an explicit `--config` path is
used as is, otherwise the default path is resolved. -/
def resolve_config_path (cli_config : Option String) (home : Option String) :
    Except String String :=
  match cli_config with
  | some path => Except.ok path
  | none => get_default_config_path home

/-- The load step of `main` in main.rs (the non-`--init` path): a load
failure is logged to stderr (third component) and the in-memory default
configuration substituted, with the filesystem untouched. -/
def main_load_config (fs : FS) (path : String) : Config × FS × List String :=
  match load_config fs path with
  | Except.ok (config, fs2) => (config, fs2, [])
  | Except.error e =>
    (create_default_config, fs, ["Error loading config from " ++ path ++ ": " ++ e])

/-- The entry loop of `main` in main.rs: each configuration entry whose key
string has a first character is added to the menu with that character;
entries with an empty key string are skipped. -/
def add_config_entries (menu : Menu) (entries : List MenuEntryConfig) : Menu :=
  entries.foldl
    (fun m e =>
      match e.key.data.head? with
      | some key_char => m.add_entry key_char e.label e.command
      | none => m)
    menu

/-- The menu construction of `main` in main.rs: title defaulted to
"Shortcuts", theme expanded, entries added in order. -/
def build_menu (home : Option String) (config : Config) : Menu :=
  add_config_entries
    (Menu.new (config.menu_title.getD "Shortcuts") (config.theme.map (expand_path home)))
    config.entries

/-- A second definition, written from the spec's wording for the
duplicate-key behavior rather than from the code: the activation index
recorded for key `k` is that of the last entry (from position `i` on) whose
key is `k` — last-writer-wins. Compared against `key_to_index` below. -/
def spec_last_activation_index (k : Char) : Nat → List MenuEntry → Option Int
  | _, [] => none
  | i, e :: rest =>
    match spec_last_activation_index k (i + 1) rest with
    | some v => some v
    | none => if e.key = k then some ((i : Int) + 1) else none

/-- A concrete two-entry menu used to exercise the theorems. -/
def demo_menu : Menu :=
  ((Menu.new "Applications" none).add_entry 'f' "Firefox" "firefox").add_entry
    't' "Terminal" "xterm"

/-- A concrete menu with a duplicated key, used to exercise the
duplicate-key theorems. -/
def dup_menu : Menu :=
  ((Menu.new "Applications" none).add_entry 'f' "Firefox" "firefox").add_entry
    'f' "Falkon" "falkon"

/-- An empty filesystem. -/
def empty_fs : FS := fun _ => none

/-- A filesystem holding one unparsable config file at path "cfg". -/
def bad_fs : FS := fun p => if p = "cfg" then some (JsonVal.str "bad") else none

/-- Entry-order and title/theme preservation of the `main` entry loop: the
menu accumulates, per configuration entry with a non-empty key, one entry
keyed by the key string's first character. -/
theorem add_config_entries_entries (entries : List MenuEntryConfig) (m : Menu) :
    (add_config_entries m entries).entries =
      m.entries ++ entries.filterMap
        (fun e => e.key.data.head?.map (fun c => MenuEntry.mk c e.label e.command)) := by
  induction entries generalizing m with
  | nil => simp [add_config_entries]
  | cons e rest ih =>
    have step : add_config_entries m (e :: rest) =
        add_config_entries
          (match e.key.data.head? with
           | some key_char => m.add_entry key_char e.label e.command
           | none => m) rest := rfl
    rw [step, ih]
    cases hk : e.key.data with
    | nil => simp [hk]
    | cons c cs => simp [hk, Menu.add_entry, List.append_assoc]

/-- C9: the menu built at startup has exactly one entry per configuration
entry whose key string is non-empty, in configuration order, keyed by the
first character of the key string; an entry with an empty key string is
silently dropped. -/
theorem menu_built_from_config (home : Option String) (config : Config) :
    (build_menu home config).entries =
      config.entries.filterMap
        (fun e => e.key.data.head?.map (fun c => MenuEntry.mk c e.label e.command)) := by
  rw [build_menu, add_config_entries_entries]
  simp [Menu.new]

/-- C3: the selector input has exactly one line per entry, the i-th line
being the i-th entry's key in square brackets, a space, and its label. -/
theorem rendered_lines (m : Menu) :
    m.rofi_input_lines.length = m.entries.length ∧
    ∀ (i : Nat) (hi : i < m.entries.length),
      m.rofi_input_lines.get ⟨i, by simpa [Menu.rofi_input_lines] using hi⟩ =
        "[" ++ (m.entries.get ⟨i, hi⟩).key.toString ++ "] "
          ++ (m.entries.get ⟨i, hi⟩).label := by
  refine ⟨by simp [Menu.rofi_input_lines], ?_⟩
  intro i hi
  simp [Menu.rofi_input_lines]

/-- Witness for C3 on a concrete two-entry menu. -/
theorem rendered_lines_witness :
    demo_menu.rofi_input_lines.length = demo_menu.entries.length ∧
    demo_menu.rofi_input_lines.get ⟨0, by decide⟩ = "[f] Firefox" := by
  refine ⟨(rendered_lines demo_menu).1, ?_⟩
  have h := (rendered_lines demo_menu).2 0 (by decide)
  simpa using h

/-- C10: a selector process that terminates without an exit code is treated
as exit code 0: no selection is resolved and no command is launched. -/
theorem killed_selector_no_launch (m : Menu) :
    m.display_with_rofi none = none ∧ main_launch (m.display_with_rofi none) = [] := by
  have h : m.display_with_rofi none = none := by
    simp [Menu.display_with_rofi]
  exact ⟨h, by simp [h, main_launch]⟩

/-- C8: an explicit config path is returned unchanged whatever `HOME` is;
with no explicit path the fixed location under the home configuration
directory is resolved, and resolution fails exactly when `HOME` is unset. -/
theorem config_path_resolution :
    (∀ (p : String) (home : Option String),
        resolve_config_path (some p) home = Except.ok p) ∧
    (∀ h : String,
        resolve_config_path none (some h) =
          Except.ok (path_push h ".config/rofi-keys/config.json")) ∧
    resolve_config_path none none = Except.error "HOME directory not found" :=
  ⟨fun _ _ => rfl, fun _ => rfl, rfl⟩

/-- C7: a path starting with the `~/` shorthand has the `~` replaced by the
value of `HOME`; a path not starting with the shorthand, or any path when
`HOME` is unset, is returned unchanged. -/
theorem expand_path_spec :
    (∀ (h : String) (rest : List Char),
        expand_path (some h) ⟨'~' :: '/' :: rest⟩ = ⟨h.data ++ '/' :: rest⟩) ∧
    (∀ (home : Option String) (path : String),
        rust_starts_with path "~/" = false → expand_path home path = path) ∧
    (∀ path : String, expand_path none path = path) := by
  refine ⟨?_, ?_, ?_⟩
  · intro h rest
    show expand_path (some h) ⟨'~' :: '/' :: rest⟩ = ⟨h.data ++ '/' :: rest⟩
    have hpre : rust_starts_with ⟨'~' :: '/' :: rest⟩ "~/" = true := by
      simp [rust_starts_with, List.isPrefixOf]
    simp only [expand_path, hpre, if_true]
    show rust_replacen ⟨'~' :: '/' :: rest⟩ "~" h 1 = ⟨h.data ++ '/' :: rest⟩
    simp [rust_replacen, list_replacen, List.isPrefixOf]
  · intro home path hpre
    cases home <;> simp [expand_path, hpre]
  · intro path
    by_cases hpre : rust_starts_with path "~/" <;> simp [expand_path, hpre]

/-- Witness for C7: the spec's own example, plus a path without the
shorthand. -/
theorem expand_path_spec_witness :
    expand_path (some "/home/u") ⟨'~' :: '/' :: "themes/x.rasi".data⟩ =
      ⟨"/home/u".data ++ '/' :: "themes/x.rasi".data⟩ ∧
    expand_path (some "/home/u") "themes/x.rasi" = "themes/x.rasi" :=
  ⟨expand_path_spec.1 "/home/u" "themes/x.rasi".data,
   expand_path_spec.2.1 (some "/home/u") "themes/x.rasi" (by decide)⟩

/-- Deserializing a serialized entry gives the entry back. -/
theorem menu_entry_roundtrip (e : MenuEntryConfig) :
    MenuEntryConfig.from_json e.to_json = some e := rfl

/-- Deserializing a serialized entry list gives the list back. -/
theorem decode_entries_roundtrip (es : List MenuEntryConfig) :
    decode_entries (es.map MenuEntryConfig.to_json) = some es := by
  induction es with
  | nil => rfl
  | cons e rest ih => simp [decode_entries, menu_entry_roundtrip, ih]

/-- Deserializing a serialized configuration gives the configuration back,
in all fields. -/
theorem config_roundtrip (c : Config) : Config.from_json c.to_json = some c := by
  obtain ⟨th, ti, es⟩ := c
  have hes := decode_entries_roundtrip es
  cases th <;> cases ti <;>
    simp [Config.to_json, Config.from_json, json_opt_string, json_field,
      option_string_to_json, hes]

/-- C4: writing a configuration and loading it back from the same path gives
a configuration equal in all fields, with the filesystem as the write left
it. -/
theorem config_write_load_roundtrip (fs : FS) (path : String) (c : Config) :
    load_config (write_config fs path c) path =
      Except.ok (c, write_config fs path c) := by
  have hpath : write_config fs path c path = some c.to_json := by
    simp [write_config]
  simp [load_config, hpath, config_roundtrip]

/-- C5: loading from a path with no file yields the fixed five-entry default
configuration and persists it at that path. -/
theorem load_missing_creates_default (fs : FS) (path : String)
    (hmiss : fs path = none) :
    load_config fs path =
      Except.ok (create_default_config, write_config fs path create_default_config) ∧
    write_config fs path create_default_config path =
      some create_default_config.to_json ∧
    create_default_config.entries.length = 5 := by
  refine ⟨?_, by simp [write_config], rfl⟩
  simp [load_config, hmiss]

/-- Witness for C5 on the empty filesystem. -/
theorem load_missing_creates_default_witness :
    load_config empty_fs "cfg" =
      Except.ok (create_default_config,
        write_config empty_fs "cfg" create_default_config) ∧
    write_config empty_fs "cfg" create_default_config "cfg" =
      some create_default_config.to_json ∧
    create_default_config.entries.length = 5 :=
  load_missing_creates_default empty_fs "cfg" rfl

/-- C6: when loading fails (and `--init` was not requested), `main`
substitutes the in-memory default configuration, leaves the filesystem
untouched (nothing is persisted), logs the failure to the diagnostic
stream, and continues. -/
theorem load_failure_falls_back (fs : FS) (path : String) (e : String)
    (h : load_config fs path = Except.error e) :
    main_load_config fs path =
      (create_default_config, fs,
        ["Error loading config from " ++ path ++ ": " ++ e]) := by
  simp [main_load_config, h]

/-- Witness for C6 on a filesystem holding an unparsable config file. -/
theorem load_failure_falls_back_witness :
    main_load_config bad_fs "cfg" =
      (create_default_config, bad_fs,
        ["Error loading config from " ++ "cfg" ++ ": " ++ "Invalid JSON config"]) :=
  load_failure_falls_back bad_fs "cfg" "Invalid JSON config" rfl

/-- If no recorded pair carries the wanted index, the reverse-lookup loop
finds nothing. -/
theorem find_command_for_index_eq_none (m : Menu) (l : List (Char × Int)) (kb : Int)
    (h : l.find? (fun p => p.2 == kb) = none) :
    find_command_for_index m l kb = none := by
  induction l with
  | nil => rfl
  | cons p rest ih =>
    obtain ⟨k, v⟩ := p
    by_cases hv : v = kb
    · rw [List.find?_cons_of_pos _ (by simp [hv])] at h
      exact absurd h (by simp)
    · rw [List.find?_cons_of_neg _ (by simp [hv])] at h
      simpa [find_command_for_index, hv] using ih h

/-- When the recorded indices are pairwise distinct, the reverse-lookup loop
returns the command of the key bound to the wanted index (and nothing when
no key is bound to it). This also makes the result independent of the
unspecified `HashMap` iteration order. -/
theorem find_command_for_index_eq_bind (m : Menu) (l : List (Char × Int)) (kb : Int)
    (hdist : l.Pairwise (fun p q => p.2 ≠ q.2)) :
    find_command_for_index m l kb =
      (l.find? (fun p => p.2 == kb)).bind (fun p => m.get_command_for_key p.1) := by
  induction l with
  | nil => rfl
  | cons p rest ih =>
    obtain ⟨k, v⟩ := p
    rw [List.pairwise_cons] at hdist
    obtain ⟨hv, hrest⟩ := hdist
    by_cases hkb : v = kb
    · subst hkb
      rw [List.find?_cons_of_pos _ (by simp)]
      simp only [find_command_for_index, if_pos rfl]
      cases hg : m.get_command_for_key k with
      | some cmd => simp [hg]
      | none =>
        have hnone : rest.find? (fun p => p.2 == v) = none := by
          rw [List.find?_eq_none]
          intro x hx
          simpa using fun heq => hv x hx heq.symm
        simp [hg, find_command_for_index_eq_none m rest v hnone]
    · rw [List.find?_cons_of_neg _ (by simp [hkb])]
      simp only [find_command_for_index, if_neg hkb]
      exact ih hrest

/-- The key-binding loop records pairwise-distinct indices: every value in
the accumulator is below the next index to be assigned, and stays so. -/
theorem build_key_to_index_invariant (entries : List MenuEntry) :
    ∀ (i : Nat) (m : List (Char × Int)),
      (∀ p ∈ m, p.2 < (i : Int) + 1) →
      m.Pairwise (fun p q => p.2 ≠ q.2) →
      ((build_key_to_index i entries m).Pairwise (fun p q => p.2 ≠ q.2) ∧
        ∀ p ∈ build_key_to_index i entries m,
          p.2 < (i : Int) + 1 + entries.length) := by
  induction entries with
  | nil =>
    intro i m hbound hpw
    refine ⟨hpw, fun p hp => ?_⟩
    have := hbound p hp
    simpa using lt_of_lt_of_le this (by simp)
  | cons e rest ih =>
    intro i m hbound hpw
    have hmem : ∀ p ∈ hm_insert m e.key ((i : Int) + 1),
        p.2 < ((i + 1 : Nat) : Int) + 1 := by
      intro p hp
      rw [hm_insert, List.mem_append] at hp
      cases hp with
      | inl h =>
        have := hbound p (List.mem_of_mem_filter h)
        push_cast
        omega
      | inr h =>
        have : p = (e.key, (i : Int) + 1) := by simpa using h
        rw [this]
        push_cast
        omega
    have hpw2 : (hm_insert m e.key ((i : Int) + 1)).Pairwise
        (fun p q => p.2 ≠ q.2) := by
      rw [hm_insert, List.pairwise_append]
      refine ⟨hpw.sublist (List.filter_sublist _), List.pairwise_singleton _ _, ?_⟩
      intro a ha b hb
      have hb2 : b = (e.key, (i : Int) + 1) := by simpa using hb
      rw [hb2]
      exact ne_of_lt (hbound a (List.mem_of_mem_filter ha))
    have hstep : build_key_to_index i (e :: rest) m =
        build_key_to_index (i + 1) rest (hm_insert m e.key ((i : Int) + 1)) := rfl
    obtain ⟨h1, h2⟩ := ih (i + 1) _ hmem hpw2
    refine ⟨by rw [hstep]; exact h1, fun p hp => ?_⟩
    rw [hstep] at hp
    have := h2 p hp
    push_cast [List.length_cons] at this ⊢
    omega

/-- The indices recorded by `key_to_index` are pairwise distinct. -/
theorem key_to_index_pairwise (entries : List MenuEntry) :
    (key_to_index entries).Pairwise (fun p q => p.2 ≠ q.2) :=
  (build_key_to_index_invariant entries 0 [] (by simp) (by simp)).1

/-- C1: an exit code below 10 resolves nothing; an exit code c ≥ 10 decodes
activation index c − 9 and returns the command resolved through the key
bound to that index, absent (not an error) when no entry maps to it. -/
theorem exit_code_decoding (m : Menu) (c : Int) :
    (c < 10 → m.display_with_rofi (some c) = none) ∧
    (c ≥ 10 →
      m.display_with_rofi (some c) =
        ((key_to_index m.entries).find? (fun p => p.2 == c - 9)).bind
          (fun p => m.get_command_for_key p.1)) := by
  constructor
  · intro hc
    show (if c ≥ 10 then
        find_command_for_index m (key_to_index m.entries) (c - 9) else none) = none
    rw [if_neg (by omega)]
  · intro hc
    show (if c ≥ 10 then
        find_command_for_index m (key_to_index m.entries) (c - 9) else none) = _
    rw [if_pos hc]
    exact find_command_for_index_eq_bind m _ _ (key_to_index_pairwise m.entries)

/-- Witness for C1: a cancelled selection and a first-binding activation on
a concrete menu. -/
theorem exit_code_decoding_witness :
    demo_menu.display_with_rofi (some 0) = none ∧
    demo_menu.display_with_rofi (some 10) = some "firefox" := by
  constructor
  · exact (exit_code_decoding demo_menu 0).1 (by decide)
  · rw [(exit_code_decoding demo_menu 10).2 (by decide)]
    rfl

/-- Membership in the association-list model of `HashMap::insert`: the new
binding replaces any binding of the same key and leaves the rest alone. -/
theorem mem_hm_insert (m : List (Char × Int)) (kk : Char) (vv : Int)
    (k : Char) (v : Int) :
    ((k, v) ∈ hm_insert m kk vv ↔
      (k = kk ∧ v = vv) ∨ (k ≠ kk ∧ (k, v) ∈ m)) := by
  rw [hm_insert, List.mem_append]
  simp only [List.mem_filter, List.mem_singleton, Prod.mk.injEq, bne_iff_ne,
    ne_eq, decide_eq_true_eq]
  tauto

/-- The key-binding loop is last-writer-wins: a pair is in the built map
exactly when its value is the last activation index recorded for its key
(or was already in the accumulator and the key never occurs). -/
theorem mem_build_key_to_index (k : Char) (v : Int) :
    ∀ (entries : List MenuEntry) (i : Nat) (m : List (Char × Int)),
      ((k, v) ∈ build_key_to_index i entries m ↔
        (spec_last_activation_index k i entries = some v ∨
          (spec_last_activation_index k i entries = none ∧ (k, v) ∈ m))) := by
  intro entries
  induction entries with
  | nil =>
    intro i m
    simp [build_key_to_index, spec_last_activation_index]
  | cons e rest ih =>
    intro i m
    have hstep : build_key_to_index i (e :: rest) m =
        build_key_to_index (i + 1) rest (hm_insert m e.key ((i : Int) + 1)) := rfl
    rw [hstep, ih, mem_hm_insert]
    cases hlast : spec_last_activation_index k (i + 1) rest with
    | some w => simp [spec_last_activation_index, hlast]
    | none =>
      by_cases hk : e.key = k
      · subst hk
        simp [spec_last_activation_index, hlast, eq_comm]
      · have hk2 : k ≠ e.key := fun h => hk h.symm
        simp [spec_last_activation_index, hlast, hk, hk2]

/-- The first entry of a list whose key is `k`, found by `find?`. -/
theorem find_first_key (k : Char) (pre post : List MenuEntry) (e : MenuEntry)
    (he : e.key = k) (hpre : ∀ x ∈ pre, x.key ≠ k) :
    (pre ++ e :: post).find? (fun x => x.key == k) = some e := by
  induction pre with
  | nil => simp [List.find?_cons_of_pos, he]
  | cons x xs ih =>
    rw [List.cons_append, List.find?_cons_of_neg _ (by simp [hpre x (List.mem_cons_self x xs)])]
    exact ih (fun y hy => hpre y (List.mem_cons_of_mem _ hy))

/-- C2: the key-to-index mapping is last-writer-wins — a key decodes exactly
to the activation index of the last entry carrying it — while
`get_command_for_key` returns the command of the first entry in entry order
with the given key, absent when no entry matches. -/
theorem duplicate_key_behavior :
    (∀ (entries : List MenuEntry) (k : Char) (v : Int),
        ((k, v) ∈ key_to_index entries ↔
          spec_last_activation_index k 0 entries = some v)) ∧
    (∀ (title : String) (theme : Option String) (pre post : List MenuEntry)
        (e : MenuEntry) (k : Char),
        e.key = k → (∀ x ∈ pre, x.key ≠ k) →
        (Menu.mk title (pre ++ e :: post) theme).get_command_for_key k =
          some e.command) ∧
    (∀ (m : Menu) (k : Char), (∀ x ∈ m.entries, x.key ≠ k) →
        m.get_command_for_key k = none) := by
  refine ⟨?_, ?_, ?_⟩
  · intro entries k v
    have h := mem_build_key_to_index k v entries 0 []
    simpa [key_to_index] using h
  · intro title theme pre post e k he hpre
    simp [Menu.get_command_for_key, find_first_key k pre post e he hpre]
  · intro m k hnone
    have h : m.entries.find? (fun x => x.key == k) = none := by
      rw [List.find?_eq_none]
      intro x hx
      simpa using hnone x hx
    simp [Menu.get_command_for_key, h]

/-- Witness for C2 on a menu with a duplicated key: the map holds the later
entry's index, and lookup returns the earlier entry's command. -/
theorem duplicate_key_behavior_witness :
    (('f', (2 : Int)) ∈ key_to_index dup_menu.entries) ∧
    dup_menu.get_command_for_key 'f' = some "firefox" := by
  constructor
  · exact (duplicate_key_behavior.1 dup_menu.entries 'f' 2).mpr (by decide)
  · exact duplicate_key_behavior.2.1 "Applications" none []
      [{ key := 'f', label := "Falkon", command := "falkon" }]
      { key := 'f', label := "Firefox", command := "firefox" } 'f' rfl (by simp)
